import Mathlib

/-!
Verification of the ESG-AI repository against its specification.

Shallow embedding of the Python sources:
  * `src/portfolio_optimizer.py` — ESG/risk categorisation and tier logic;
  * `src/evolutionary_optimizer.py` — evolutionary portfolio allocator;
  * `src/price_data.py` — price fetching with live/cache fallback and the
    dataframe normaliser.

Python floats are modelled as rationals (`ℚ`): none of the verified
properties depends on rounding, only on order comparisons and exact
arithmetic identities.  NaN/NaT and infinities are modelled explicitly
where the code's semantics depends on them.
-/

namespace ESGAI

/-! ## portfolio_optimizer.py -/

/-- Embedding of `categorize_esg` (portfolio_optimizer.py lines 6-11). -/
def categorize_esg (esg_score : ℚ) : String :=
  if esg_score < 20 then "Low"
  else if esg_score < 30 then "Medium"
  else "High"

/-- Embedding of `categorize_risk` (portfolio_optimizer.py lines 14-20); the
`thresholds` dict is passed as its two entries `low` and `high`. -/
def categorize_risk (volatility : ℚ) (low high : ℚ) : String :=
  if volatility ≤ low then "Low"
  else if volatility ≤ high then "Medium"
  else "High"

/-- A row of the `esg_df` dataframe as read by `optimize_portfolio`:
`row["Ticker"]`, `row.get("ESG_Score", np.nan)` (NaN modelled as `none`)
and `row.get("Industry", "")`. -/
structure ESGRow where
  ticker : String
  esg_score : Option ℚ
  industry : String
  deriving DecidableEq

/-- A record appended to `recommendations` by `optimize_portfolio`, or the
sentinel dict `{"Ticker": "No suitable match"}` (modelled as `noMatch`). -/
inductive PortfolioRec where
  | entry (ticker : String) (esg_score : ℚ) (esg_cat : String) (risk_cat : String)
      (volatility : ℚ) (sentiment : String) (industry : String) (tier : String)
  | noMatch
  deriving DecidableEq

/-- The condition `not industry_label or industry_label.lower() in industry.lower()`
(portfolio_optimizer.py line 53).  A falsy `industry_label` (Python `None` or
`""`) is modelled as `none`; `in` on strings is substring containment. -/
def industryOk (industry_label : Option String) (industry : String) : Bool :=
  match industry_label with
  | none => true
  | some l => decide (l.toLower.data <:+: industry.toLower.data)

/-- The strict tier logic of `optimize_portfolio` (portfolio_optimizer.py
lines 51-60), kept branch-for-branch: both arms of the industry test inside
the first branch return `"Green"`. -/
def tierOf (esg_cat risk_cat esg_pref risk_pref sentiment : String)
    (industry_label : Option String) (industry : String) : String :=
  if esg_cat = esg_pref ∧ risk_cat = risk_pref then
    (if industryOk industry_label industry then "Green" else "Green")
  else if (esg_cat = esg_pref ∨ risk_cat = risk_pref) ∧ sentiment ≠ "negative" then
    "Yellow"
  else "Red"

/-- The tier rule as the specification words it: Green iff both categories
match; else Yellow iff exactly one matches and sentiment is not negative;
else Red.  Used only to be compared with `tierOf`. -/
def specTier (esg_cat risk_cat esg_pref risk_pref sentiment : String) : String :=
  if esg_cat = esg_pref ∧ risk_cat = risk_pref then "Green"
  else if (Xor' (esg_cat = esg_pref) (risk_cat = risk_pref)) ∧ sentiment ≠ "negative" then
    "Yellow"
  else "Red"

/-- The recommendation loop and sentinel of `optimize_portfolio`
(portfolio_optimizer.py lines 39-83).  `vol` is the annualised-volatility
series (`t not in vol` modelled by `vol t = none`); the quantile-derived
thresholds (lines 31-35) enter as the parameters `low_thr`/`high_thr`, over
which every theorem below quantifies; `sentiment_scores.get(t, "neutral")`
is `(sentiment_scores t).getD "neutral"`. -/
def optimize_portfolio (rows : List ESGRow) (vol : String → Option ℚ)
    (sentiment_scores : String → Option String) (esg_pref risk_pref : String)
    (industry_label : Option String) (low_thr high_thr : ℚ) : List PortfolioRec :=
  let recs := rows.filterMap (fun row =>
    match row.esg_score, vol row.ticker with
    | some e, some v =>
        let ec := categorize_esg e
        let rc := categorize_risk v low_thr high_thr
        let s := (sentiment_scores row.ticker).getD "neutral"
        some (PortfolioRec.entry row.ticker e ec rc v s row.industry
          (tierOf ec rc esg_pref risk_pref s industry_label row.industry))
    | _, _ => none)
  if recs.isEmpty then [PortfolioRec.noMatch] else recs

theorem tierOf_eq_specTier (ec rc ep rp s : String) (il : Option String) (ind : String) :
    tierOf ec rc ep rp s il ind = specTier ec rc ep rp s := by
  unfold tierOf specTier Xor'
  split_ifs <;> tauto

/-- C7: `categorize_esg` returns "Low" iff score < 20, "Medium" iff
20 ≤ score < 30, "High" iff score ≥ 30; `categorize_risk` returns "Low" iff
v ≤ low, "Medium" iff low < v ≤ high, and "High" otherwise. -/
theorem C7_categorization (s v low high : ℚ) :
    (categorize_esg s = "Low" ↔ s < 20) ∧
    (categorize_esg s = "Medium" ↔ 20 ≤ s ∧ s < 30) ∧
    (categorize_esg s = "High" ↔ 30 ≤ s) ∧
    (categorize_risk v low high = "Low" ↔ v ≤ low) ∧
    (categorize_risk v low high = "Medium" ↔ low < v ∧ v ≤ high) ∧
    (categorize_risk v low high = "High" ↔ ¬(v ≤ low) ∧ ¬(low < v ∧ v ≤ high)) := by
  unfold categorize_esg categorize_risk
  refine ⟨?_, ?_, ?_, ?_, ?_, ?_⟩ <;> split_ifs <;> (simp_all; try linarith)

/-- C1: every recommendation record produced by `optimize_portfolio` carries a
Tier decided by the spec's precedence order: Green iff its ESG and risk
categories both equal the user's preferences (regardless of industry); else
Yellow iff exactly one of them matches and sentiment is not "negative";
else Red. -/
theorem C1_tier_precedence (rows : List ESGRow) (vol : String → Option ℚ)
    (sents : String → Option String) (ep rp : String) (il : Option String)
    (lo hi : ℚ) (t : String) (e : ℚ) (ec rc : String) (v : ℚ) (s ind tr : String)
    (h : PortfolioRec.entry t e ec rc v s ind tr ∈
      optimize_portfolio rows vol sents ep rp il lo hi) :
    tr = specTier ec rc ep rp s := by
  unfold optimize_portfolio at h
  set f : ESGRow → Option PortfolioRec := fun row =>
    match row.esg_score, vol row.ticker with
    | some e, some v =>
        let ec := categorize_esg e
        let rc := categorize_risk v lo hi
        let s := (sents row.ticker).getD "neutral"
        some (PortfolioRec.entry row.ticker e ec rc v s row.industry
          (tierOf ec rc ep rp s il row.industry))
    | _, _ => none with hf
  by_cases hemp : (rows.filterMap f).isEmpty
  · simp only [hemp, if_pos] at h
    simp at h
  · simp only [hemp, if_neg, Bool.false_eq_true, if_false] at h
    obtain ⟨row, -, hrow⟩ := List.mem_filterMap.mp h
    rw [hf] at hrow
    simp only at hrow
    split at hrow
    · injection hrow with hrow
      injection hrow with h1 h2 h3 h4 h5 h6 h7 h8
      subst h3 h4 h6 h8
      exact tierOf_eq_specTier ..
    · exact absurd hrow (by simp)

/-- C1 witness: a concrete run in which a record is produced, instantiating
the tier-precedence theorem. -/
theorem C1_tier_precedence_witness :
    "Green" = specTier "Medium" "Medium" "Medium" "Medium" "neutral" :=
  C1_tier_precedence [⟨"AAA", some 25, "Tech"⟩] (fun _ => some 1) (fun _ => none)
    "Medium" "Medium" none 0 2 "AAA" 25 "Medium" "Medium" 1 "neutral" "Tech" "Green"
    (by
      rw [show optimize_portfolio [⟨"AAA", some 25, "Tech"⟩] (fun _ => some 1)
        (fun _ => none) "Medium" "Medium" none 0 2
        = [PortfolioRec.entry "AAA" 25 "Medium" "Medium" 1 "neutral" "Tech" "Green"]
        from rfl]
      exact List.mem_singleton.mpr rfl)

/-- C6: when no ticker has both a valid ESG score and a volatility value,
`optimize_portfolio` returns the single sentinel record
`{"Ticker": "No suitable match"}` — not an empty list. -/
theorem C6_sentinel (rows : List ESGRow) (vol : String → Option ℚ)
    (sents : String → Option String) (ep rp : String) (il : Option String)
    (lo hi : ℚ)
    (h : ∀ r ∈ rows, r.esg_score = none ∨ vol r.ticker = none) :
    optimize_portfolio rows vol sents ep rp il lo hi = [PortfolioRec.noMatch] ∧
    optimize_portfolio rows vol sents ep rp il lo hi ≠ [] := by
  have hnil : rows.filterMap (fun row =>
      match row.esg_score, vol row.ticker with
      | some e, some v =>
          let ec := categorize_esg e
          let rc := categorize_risk v lo hi
          let s := (sents row.ticker).getD "neutral"
          some (PortfolioRec.entry row.ticker e ec rc v s row.industry
            (tierOf ec rc ep rp s il row.industry))
      | _, _ => none) = [] := by
    rw [List.filterMap_eq_nil_iff]
    intro r hr
    rcases h r hr with h' | h' <;> rcases he : r.esg_score with _ | e0 <;>
      rcases hv : vol r.ticker with _ | v0 <;> simp_all
  constructor
  · unfold optimize_portfolio
    simp [hnil]
  · unfold optimize_portfolio
    simp [hnil]

/-- C6 witness: a concrete candidate set with no eligible ticker yields the
sentinel. -/
theorem C6_sentinel_witness :
    optimize_portfolio [⟨"AAA", none, ""⟩, ⟨"BBB", some 25, ""⟩]
      (fun t => if t = "BBB" then none else some 1) (fun _ => none)
      "High" "Low" none 0 1 = [PortfolioRec.noMatch] ∧
    optimize_portfolio [⟨"AAA", none, ""⟩, ⟨"BBB", some 25, ""⟩]
      (fun t => if t = "BBB" then none else some 1) (fun _ => none)
      "High" "Low" none 0 1 ≠ [] :=
  C6_sentinel _ _ _ _ _ _ _ _ (by decide)

/-! ## price_data.py — fetching with fallback -/

/-- The three data sources seen by `get_price_history` for a ticker: the
result a call to `_download_yf`, `_download_stooq` or `_load_csv` would
return.  Each of those helpers catches every exception internally and
returns an empty frame on failure (price_data.py lines 134-166, 72-107), so
a source is a total function into a row list; `[]` models the empty frame. -/
structure Sources (α : Type) where
  yf : String → List α
  stooq : String → List α
  cache : String → List α

/-- The keyword arguments of `get_price_history` that steer the fallback
(price_data.py lines 169-177). -/
structure FetchCfg where
  prefer_live : Bool
  min_rows : ℕ
  use_cache : Bool
  allow_stooq : Bool

/-- One loop iteration of `get_price_history` (price_data.py lines 187-213)
for ticker `t` (already uppercased).  Returns the frame stored into `out[t]`
together with consultation flags `(yfCalled, stooqCalled, cacheCalled)`,
modelling call-count instrumentation on the three sources.  The `_save_csv`
side effect is omitted: it does not affect the returned map. -/
def fetchOne (S : Sources α) (cfg : FetchCfg) (t : String) :
    List α × (Bool × Bool × Bool) :=
  if cfg.prefer_live then
    let df0 := S.yf t
    let p1 := if (df0.isEmpty || decide (df0.length < cfg.min_rows)) && cfg.allow_stooq
      then (S.stooq t, true) else (df0, false)
    let p2 := if (p1.1.isEmpty || decide (p1.1.length < cfg.min_rows)) && cfg.use_cache
      then (S.cache t, true) else (p1.1, false)
    (p2.1, (true, p1.2, p2.2))
  else
    let df0 := if cfg.use_cache then S.cache t else []
    if df0.isEmpty || decide (df0.length < cfg.min_rows) then
      let live0 := S.yf t
      let p1 := if (live0.isEmpty || decide (live0.length < cfg.min_rows)) && cfg.allow_stooq
        then (S.stooq t, true) else (live0, false)
      (if !p1.1.isEmpty then p1.1 else df0, (true, p1.2, cfg.use_cache))
    else
      (df0, (false, false, cfg.use_cache))

/-- Insert-or-replace on an association list, the semantics of `out[t] = df`
on a Python dict (first-insertion order, unique keys). -/
def dictInsert (m : List (String × β)) (k : String) (v : β) : List (String × β) :=
  if m.any (fun p => p.1 = k) then
    m.map (fun p => if p.1 = k then (k, v) else p)
  else m ++ [(k, v)]

/-- Embedding of `get_price_history` (price_data.py lines 169-215):
uppercase the requested tickers, fetch each in turn, store into the dict
`out`. -/
def get_price_history (S : Sources α) (cfg : FetchCfg) (tickers : List String) :
    List (String × List α) :=
  (tickers.map (fun t => t.toUpper)).foldl
    (fun out t => dictInsert out t (fetchOne S cfg t).1) []

/-- The columns of the wide matrix built by `get_prices_matrix`
(price_data.py lines 291-304): one per ticker whose frame is nonempty;
tickers with empty frames are skipped before the concat. -/
def get_prices_matrix_cols (bundle : List (String × List α)) : List String :=
  (bundle.filter (fun p => !p.2.isEmpty)).map (fun p => p.1)

/-- Dict lookup on the association-list model of the Python dict. -/
def dictLookup (m : List (String × β)) (k : String) : Option β :=
  match m with
  | [] => none
  | p :: r => if p.1 = k then some p.2 else dictLookup r k

theorem dictLookup_map_replace (r : List (String × β)) (k k' : String) (v : β)
    (h : k' ≠ k) :
    dictLookup (r.map (fun q => if q.1 = k then (k, v) else q)) k'
      = dictLookup r k' := by
  induction r with
  | nil => rfl
  | cons q r ih =>
      by_cases hq : q.1 = k
      · have h1 : ¬(k = k') := fun hh => h hh.symm
        have h2 : ¬(q.1 = k') := by rw [hq]; exact h1
        simp only [List.map_cons, if_pos hq, dictLookup, if_neg h1, if_neg h2]
        exact ih
      · simp only [List.map_cons, if_neg hq, dictLookup]
        by_cases hq' : q.1 = k' <;> simp [hq', ih]

theorem dictLookup_dictInsert (m : List (String × β)) (k k' : String) (v : β) :
    dictLookup (dictInsert m k v) k' = if k' = k then some v else dictLookup m k' := by
  induction m with
  | nil =>
      by_cases h : k' = k
      · simp [dictInsert, dictLookup, h]
      · simp [dictInsert, dictLookup, h, Ne.symm h]
  | cons p r ih =>
      by_cases hp : p.1 = k
      · have hany : ((p :: r).any fun q => decide (q.1 = k)) = true := by simp [hp]
        unfold dictInsert
        rw [if_pos hany, List.map_cons, if_pos hp]
        by_cases hk : k' = k
        · simp [dictLookup, hk]
        · have h1 : ¬(k = k') := fun hh => hk hh.symm
          have h2 : ¬(p.1 = k') := by rw [hp]; exact h1
          simp only [dictLookup, if_neg h1, if_neg h2, if_neg hk]
          exact dictLookup_map_replace r k k' v hk
      · have hany : ((p :: r).any fun q => decide (q.1 = k))
            = (r.any fun q => decide (q.1 = k)) := by simp [hp]
        unfold dictInsert
        rw [hany]
        unfold dictInsert at ih
        by_cases ha : (r.any fun q => decide (q.1 = k)) = true
        · rw [if_pos ha, List.map_cons, if_neg hp]
          rw [if_pos ha] at ih
          by_cases hp' : p.1 = k'
          · have hk : ¬(k' = k) := fun hh => hp (hp'.trans hh)
            simp [dictLookup, hp', hk]
          · simp only [dictLookup, if_neg hp']
            exact ih
        · rw [if_neg ha, List.cons_append]
          rw [if_neg ha] at ih
          by_cases hp' : p.1 = k'
          · have hk : ¬(k' = k) := fun hh => hp (hp'.trans hh)
            simp [dictLookup, hp', hk]
          · simp only [dictLookup, if_neg hp']
            exact ih

theorem dictLookup_dictInsert_self (m : List (String × β)) (k : String) (v : β) :
    dictLookup (dictInsert m k v) k = some v := by
  rw [dictLookup_dictInsert, if_pos rfl]

theorem dictLookup_dictInsert_ne (m : List (String × β)) (k k' : String) (v : β)
    (h : k' ≠ k) : dictLookup (dictInsert m k v) k' = dictLookup m k' := by
  rw [dictLookup_dictInsert, if_neg h]

theorem dictInsert_keys_mem (m : List (String × β)) (k : String) (v : β)
    (x : String) (hx : x ∈ (dictInsert m k v).map Prod.fst) :
    x ∈ m.map Prod.fst ∨ x = k := by
  unfold dictInsert at hx
  split_ifs at hx with hany
  · left
    obtain ⟨p, hp, hpe⟩ := List.mem_map.mp hx
    obtain ⟨q, hq, hqe⟩ := List.mem_map.mp hp
    by_cases hq1 : q.1 = k
    · subst hpe
      rw [if_pos hq1] at hqe
      subst hqe
      exact hq1 ▸ List.mem_map.mpr ⟨q, hq, rfl⟩
    · subst hpe
      rw [if_neg hq1] at hqe
      subst hqe
      exact List.mem_map.mpr ⟨q, hq, rfl⟩
  · rw [List.map_append] at hx
    rcases List.mem_append.mp hx with h | h
    · exact Or.inl h
    · simp at h
      exact Or.inr h

theorem dictInsert_keys_nodup (m : List (String × β)) (k : String) (v : β)
    (h : (m.map Prod.fst).Nodup) : ((dictInsert m k v).map Prod.fst).Nodup := by
  unfold dictInsert
  split_ifs with hany
  · have : (m.map (fun p => if p.1 = k then (k, v) else p)).map Prod.fst
        = m.map Prod.fst := by
      rw [List.map_map]
      apply List.map_congr_left
      intro p _
      by_cases hp : p.1 = k <;> simp [hp]
    rw [this]
    exact h
  · rw [List.map_append]
    simp only [List.map_cons, List.map_nil, List.nodup_append]
    refine ⟨h, List.nodup_singleton k, ?_⟩
    intro x hx hk
    simp only [List.mem_singleton] at hk
    subst hk
    obtain ⟨p, hp, hpe⟩ := List.mem_map.mp hx
    exact hany (List.any_eq_true.mpr ⟨p, hp, by simp [hpe]⟩)

theorem dictLookup_unique_value (m : List (String × β)) (k : String) (v : β)
    (hn : (m.map Prod.fst).Nodup) (hl : dictLookup m k = some v) :
    ∀ p ∈ m, p.1 = k → p.2 = v := by
  induction m with
  | nil => intro p hp; simp at hp
  | cons q r ih =>
      intro p hp hpk
      simp only [List.map_cons, List.nodup_cons] at hn
      rcases List.mem_cons.mp hp with h | h
      · subst h
        rw [dictLookup, if_pos hpk] at hl
        exact (Option.some_inj.mp hl)
      · by_cases hq : q.1 = k
        · exact absurd (hq ▸ hpk ▸ List.mem_map.mpr ⟨p, h, rfl⟩) hn.1
        · rw [dictLookup, if_neg hq] at hl
          exact ih hn.2 hl p h hpk

theorem get_price_history_lookup_aux (S : Sources α) (cfg : FetchCfg)
    (ts : List String) (acc : List (String × List α)) (k : String) :
    dictLookup (ts.foldl (fun out t => dictInsert out t (fetchOne S cfg t).1) acc) k
      = if k ∈ ts then some (fetchOne S cfg k).1 else dictLookup acc k := by
  induction ts generalizing acc with
  | nil => simp
  | cons u rest ih =>
      rw [List.foldl_cons, ih]
      by_cases hrest : k ∈ rest
      · simp [hrest, List.mem_cons]
      · by_cases hu : k = u
        · subst hu
          simp [hrest, dictLookup_dictInsert_self]
        · simp [hrest, hu, dictLookup_dictInsert_ne _ _ _ _ hu]

theorem get_price_history_keys_aux (S : Sources α) (cfg : FetchCfg)
    (ts : List String) (acc : List (String × List α))
    (hn : (acc.map Prod.fst).Nodup) :
    (((ts.foldl (fun out t => dictInsert out t (fetchOne S cfg t).1) acc)).map
      Prod.fst).Nodup ∧
    ∀ x ∈ ((ts.foldl (fun out t => dictInsert out t (fetchOne S cfg t).1) acc)).map
      Prod.fst, x ∈ acc.map Prod.fst ∨ x ∈ ts := by
  induction ts generalizing acc with
  | nil => exact ⟨hn, fun x hx => Or.inl hx⟩
  | cons u rest ih =>
      rw [List.foldl_cons]
      obtain ⟨h1, h2⟩ := ih (dictInsert acc u (fetchOne S cfg u).1)
        (dictInsert_keys_nodup _ _ _ hn)
      refine ⟨h1, fun x hx => ?_⟩
      rcases h2 x hx with h | h
      · rcases dictInsert_keys_mem _ _ _ _ h with h' | h'
        · exact Or.inl h'
        · exact Or.inr (h' ▸ List.mem_cons_self u rest)
      · exact Or.inr (List.mem_cons_of_mem u h)

theorem fetchOne_all_empty (S : Sources α) (cfg : FetchCfg) (t : String)
    (h1 : S.yf t = []) (h2 : S.stooq t = []) (h3 : S.cache t = []) :
    (fetchOne S cfg t).1 = [] := by
  unfold fetchOne
  rcases cfg with ⟨pl, mr, uc, as⟩
  cases pl <;> cases uc <;> cases as <;> simp [h1, h2, h3]

theorem gph_lookup (S : Sources α) (cfg : FetchCfg) (tickers : List String)
    (t : String) (ht : t ∈ tickers) :
    dictLookup (get_price_history S cfg tickers) t.toUpper
      = some (fetchOne S cfg t.toUpper).1 := by
  unfold get_price_history
  rw [get_price_history_lookup_aux S cfg (tickers.map (fun t => t.toUpper)) [] t.toUpper,
    if_pos (List.mem_map.mpr ⟨t, ht, rfl⟩)]

theorem gph_keys_nodup (S : Sources α) (cfg : FetchCfg) (tickers : List String) :
    ((get_price_history S cfg tickers).map Prod.fst).Nodup := by
  unfold get_price_history
  exact (get_price_history_keys_aux S cfg (tickers.map (fun t => t.toUpper)) []
    (by simp)).1

theorem gph_keys_from (S : Sources α) (cfg : FetchCfg) (tickers : List String)
    (x : String) (hx : x ∈ (get_price_history S cfg tickers).map Prod.fst) :
    ∃ u ∈ tickers, x = u.toUpper := by
  unfold get_price_history at hx
  rcases (get_price_history_keys_aux S cfg (tickers.map (fun t => t.toUpper)) []
    (by simp)).2 x hx with h | h
  · simp at h
  · obtain ⟨u, hu, hue⟩ := List.mem_map.mp h
    exact ⟨u, hu, hue.symm⟩

theorem dictLookup_mem_keys (m : List (String × β)) (k : String) (v : β)
    (h : dictLookup m k = some v) : k ∈ m.map Prod.fst := by
  induction m with
  | nil => simp [dictLookup] at h
  | cons p r ih =>
      by_cases hp : p.1 = k
      · exact hp ▸ List.mem_map.mpr ⟨p, List.mem_cons_self p r, rfl⟩
      · rw [dictLookup, if_neg hp] at h
        exact List.mem_cons_of_mem _ (ih h)

/-- C10: the map returned by `get_price_history` has exactly one entry per
requested ticker, keyed by the uppercased ticker; a ticker for which every
source fails is still present, mapped to an empty series. -/
theorem C10_map_shape (S : Sources α) (cfg : FetchCfg) (tickers : List String)
    (t : String) (ht : t ∈ tickers) :
    ((get_price_history S cfg tickers).map Prod.fst).Nodup ∧
    (∀ x ∈ (get_price_history S cfg tickers).map Prod.fst,
      ∃ u ∈ tickers, x = u.toUpper) ∧
    dictLookup (get_price_history S cfg tickers) t.toUpper
      = some (fetchOne S cfg t.toUpper).1 ∧
    (S.yf t.toUpper = [] → S.stooq t.toUpper = [] → S.cache t.toUpper = [] →
      dictLookup (get_price_history S cfg tickers) t.toUpper = some []) :=
  ⟨gph_keys_nodup S cfg tickers, gph_keys_from S cfg tickers,
    gph_lookup S cfg tickers t ht,
    fun h1 h2 h3 => by
      rw [gph_lookup S cfg tickers t ht, fetchOne_all_empty S cfg _ h1 h2 h3]⟩

/-- C10 witness: one requested ticker whose sources all fail is present in
the returned map, mapped to the empty series. -/
theorem C10_map_shape_witness :
    dictLookup (get_price_history
      (⟨fun _ => [], fun _ => [], fun _ => []⟩ : Sources ℕ)
      ⟨true, 120, true, true⟩ ["AAPL"]) ("AAPL".toUpper) = some [] :=
  ((C10_map_shape (⟨fun _ => [], fun _ => [], fun _ => []⟩ : Sources ℕ)
    ⟨true, 120, true, true⟩ ["AAPL"] "AAPL"
    (List.mem_singleton.mpr rfl)).2.2.2) rfl rfl rfl

/-- C4 counterexample: with `minRows = 0`, live source A (Yahoo) returns an
empty frame — a result whose row count (0) is at least `minRows` — yet the
code still consults source B (Stooq) and accepts B's result instead, because
the source-advance test is `df.empty or len(df) < min_rows`.  This refutes
the claim as stated for that input. -/
theorem C4_counterexample :
    ((⟨fun _ => [], fun _ => [5], fun _ => []⟩ : Sources ℕ).yf "T").length ≥ 0 ∧
    (fetchOne (⟨fun _ => [], fun _ => [5], fun _ => []⟩ : Sources ℕ)
      ⟨true, 0, true, true⟩ "T").2.2.1 = true ∧
    (fetchOne (⟨fun _ => [], fun _ => [5], fun _ => []⟩ : Sources ℕ)
      ⟨true, 0, true, true⟩ "T").1 = [5] := by
  decide

/-- C4 (amended): in live-first mode with the Stooq fallback and cache
enabled, the fetcher tries Yahoo, then Stooq, then the cache, accepting the
first result that is nonempty and has at least `minRows` rows (for
`minRows ≥ 1` this is exactly "row count at least minRows"); if Yahoo's
result qualifies, Stooq and the cache are not consulted; an attempt that is
empty or has fewer than `minRows` rows makes the fetcher advance to the next
source. -/
theorem C4_live_first_order (S : Sources α) (cfg : FetchCfg) (t : String)
    (hl : cfg.prefer_live = true) (hs : cfg.allow_stooq = true)
    (hc : cfg.use_cache = true) :
    (S.yf t ≠ [] ∧ cfg.min_rows ≤ (S.yf t).length →
      fetchOne S cfg t = (S.yf t, (true, false, false))) ∧
    ((S.yf t = [] ∨ (S.yf t).length < cfg.min_rows) →
      S.stooq t ≠ [] ∧ cfg.min_rows ≤ (S.stooq t).length →
      fetchOne S cfg t = (S.stooq t, (true, true, false))) ∧
    ((S.yf t = [] ∨ (S.yf t).length < cfg.min_rows) →
      (S.stooq t = [] ∨ (S.stooq t).length < cfg.min_rows) →
      fetchOne S cfg t = (S.cache t, (true, true, true))) := by
  unfold fetchOne
  rw [hl, hs, hc]
  refine ⟨?_, ?_, ?_⟩
  · rintro ⟨hne, hlen⟩
    simp [List.isEmpty_iff, hne, Nat.not_lt.mpr hlen]
  · rintro hyf ⟨hne, hlen⟩
    have hcond : ((S.yf t).isEmpty || decide ((S.yf t).length < cfg.min_rows)) = true := by
      rcases hyf with h | h <;> simp [h, List.isEmpty_iff]
    simp [hcond, List.isEmpty_iff, hne, Nat.not_lt.mpr hlen]
  · intro hyf hst
    have hcond : ((S.yf t).isEmpty || decide ((S.yf t).length < cfg.min_rows)) = true := by
      rcases hyf with h | h <;> simp [h, List.isEmpty_iff]
    have hcond2 : ((S.stooq t).isEmpty || decide ((S.stooq t).length < cfg.min_rows)) = true := by
      rcases hst with h | h <;> simp [h, List.isEmpty_iff]
    simp [hcond, hcond2]

/-- C4 witness: Yahoo returns two rows with `minRows = 2`, so its result is
accepted and neither Stooq nor the cache is consulted. -/
theorem C4_live_first_order_witness :
    fetchOne (⟨fun _ => [3, 4], fun _ => [7], fun _ => [9]⟩ : Sources ℕ)
      ⟨true, 2, true, true⟩ "T" = ([3, 4], (true, false, false)) :=
  (C4_live_first_order (⟨fun _ => [3, 4], fun _ => [7], fun _ => [9]⟩ : Sources ℕ)
    ⟨true, 2, true, true⟩ "T" rfl rfl rfl).1 (by decide)

/-- C5 counterexample: when every source fails for the only requested
ticker, that ticker is NOT absent from the returned price map — the map
still contains the key, bound to an empty frame (`out[t] = df` runs
unconditionally). -/
theorem C5_counterexample :
    "AAPL".toUpper ∈ (get_price_history
      (⟨fun _ => [], fun _ => [], fun _ => []⟩ : Sources ℕ)
      ⟨true, 120, true, true⟩ ["AAPL"]).map Prod.fst ∧
    dictLookup (get_price_history
      (⟨fun _ => [], fun _ => [], fun _ => []⟩ : Sources ℕ)
      ⟨true, 120, true, true⟩ ["AAPL"]) ("AAPL".toUpper) = some [] := by
  have h : dictLookup (get_price_history
      (⟨fun _ => [], fun _ => [], fun _ => []⟩ : Sources ℕ)
      ⟨true, 120, true, true⟩ ["AAPL"]) ("AAPL".toUpper) = some [] := by
    rw [gph_lookup _ _ _ "AAPL" (List.mem_singleton.mpr rfl)]
    rfl
  exact ⟨dictLookup_mem_keys _ _ _ h, h⟩

/-- C5 (amended): if every source fails for a requested ticker, no exception
propagates (the embedding is total because each downloader catches its own
exceptions); the ticker is present in the returned price map but mapped to
an empty series, and it is absent from the price matrix's columns. -/
theorem C5_all_sources_fail (S : Sources α) (cfg : FetchCfg)
    (tickers : List String) (t : String) (ht : t ∈ tickers)
    (h1 : S.yf t.toUpper = []) (h2 : S.stooq t.toUpper = [])
    (h3 : S.cache t.toUpper = []) :
    dictLookup (get_price_history S cfg tickers) t.toUpper = some [] ∧
    t.toUpper ∉ get_prices_matrix_cols (get_price_history S cfg tickers) := by
  have hn := gph_keys_nodup S cfg tickers
  have hlk : dictLookup (get_price_history S cfg tickers) t.toUpper = some [] := by
    rw [gph_lookup S cfg tickers t ht, fetchOne_all_empty S cfg _ h1 h2 h3]
  refine ⟨hlk, ?_⟩
  intro hmem
  obtain ⟨p, hp, hpe⟩ := List.mem_map.mp hmem
  obtain ⟨hpb, hpne⟩ := List.mem_filter.mp hp
  have := dictLookup_unique_value _ _ _ hn hlk p hpb hpe
  rw [this] at hpne
  simp at hpne

/-- C5 witness: the amended behaviour at a concrete all-failing input. -/
theorem C5_all_sources_fail_witness :
    dictLookup (get_price_history
        (⟨fun _ => [], fun _ => [], fun _ => []⟩ : Sources ℕ)
        ⟨false, 120, true, true⟩ ["MSFT"]) ("MSFT".toUpper) = some [] ∧
    ("MSFT".toUpper) ∉ get_prices_matrix_cols (get_price_history
        (⟨fun _ => [], fun _ => [], fun _ => []⟩ : Sources ℕ)
        ⟨false, 120, true, true⟩ ["MSFT"]) :=
  C5_all_sources_fail (⟨fun _ => [], fun _ => [], fun _ => []⟩ : Sources ℕ)
    ⟨false, 120, true, true⟩ ["MSFT"] "MSFT" (List.mem_singleton.mpr rfl)
    rfl rfl rfl

/-! ## price_data.py — the dataframe normaliser -/

/-- A pandas cell of the price column after `pd.to_numeric(..., errors="coerce")`:
NaN (any unparseable value is coerced to NaN), an infinity (which
`to_numeric` passes through), or a finite numeric value. -/
inductive PVal where
  | nan
  | inf
  | ninf
  | num (q : ℚ)
  deriving DecidableEq

/-- A row of the frame entering `_normalize_df` after column selection: the
result of the robust date coercion (`NaT` is `none`; valid dates as day
numbers) and of the numeric coercion of the chosen price column.  The
column-renaming plumbing of `_normalize_df` (price_data.py lines 41-66) is
identifier bookkeeping and is modelled by presenting the two columns
directly. -/
structure RawRow where
  date : Option ℤ
  adjClose : PVal
  deriving DecidableEq

/-- One row after `dropna(subset=["Date", "Adj Close"])` (price_data.py
line 69): kept iff the date coerced and the price is not NaN. -/
def coerceRow (r : RawRow) : Option (ℤ × PVal) :=
  match r.date with
  | some d => if r.adjClose = PVal.nan then none else some (d, r.adjClose)
  | none => none

/-- Comparison by date used by `sort_values("Date")`. -/
def dateLe (a b : ℤ × PVal) : Prop := a.1 ≤ b.1

instance : DecidableRel dateLe := fun a b => inferInstanceAs (Decidable (a.1 ≤ b.1))

instance : IsTotal (ℤ × PVal) dateLe := ⟨fun a b => le_total a.1 b.1⟩

instance : IsTrans (ℤ × PVal) dateLe := ⟨fun _ _ _ h1 h2 => le_trans h1 h2⟩

/-- Embedding of the data path of `_normalize_df` (price_data.py lines
67-70): coerce, drop failed rows, sort ascending by date.  `sort_values`
(default kind) is modelled by insertion sort; the claims proved about it do
not depend on the tie order of equal dates. -/
def normalize_df (rows : List RawRow) : List (ℤ × PVal) :=
  List.insertionSort dateLe (rows.filterMap coerceRow)

/-- C8 counterexample: an input with two rows sharing a date and one row
whose price is +infinity.  The output keeps the duplicate date (so dates are
not strictly ascending and unique) and keeps the infinite price (so
AdjustedClose is not finite for every row). -/
theorem C8_counterexample :
    normalize_df [⟨some 5, PVal.num 1⟩, ⟨some 5, PVal.num 2⟩, ⟨some 3, PVal.inf⟩]
      = [(3, PVal.inf), (5, PVal.num 1), (5, PVal.num 2)] ∧
    ¬ ((normalize_df [⟨some 5, PVal.num 1⟩, ⟨some 5, PVal.num 2⟩,
        ⟨some 3, PVal.inf⟩]).map Prod.fst).Chain' (fun a b => a < b) ∧
    PVal.inf ∈ (normalize_df [⟨some 5, PVal.num 1⟩, ⟨some 5, PVal.num 2⟩,
        ⟨some 3, PVal.inf⟩]).map Prod.snd := by
  have h : normalize_df [⟨some 5, PVal.num 1⟩, ⟨some 5, PVal.num 2⟩,
      ⟨some 3, PVal.inf⟩] = [(3, PVal.inf), (5, PVal.num 1), (5, PVal.num 2)] := rfl
  refine ⟨h, ?_, ?_⟩
  · rw [h]
    simp [List.chain'_cons]
  · rw [h]
    simp

/-- C8 (amended): the series produced by the normaliser has dates sorted in
non-decreasing order (duplicate dates are preserved, not removed); every
AdjustedClose value is non-NaN — rows failing date or price coercion are
dropped, and the output is exactly a permutation of the rows that pass
coercion — but values need not be finite, since infinities survive the
numeric coercion. -/
theorem C8_normalized_series (rows : List RawRow) :
    List.Sorted dateLe (normalize_df rows) ∧
    (∀ p ∈ normalize_df rows, p.2 ≠ PVal.nan) ∧
    (normalize_df rows).Perm (rows.filterMap coerceRow) := by
  refine ⟨List.sorted_insertionSort dateLe _, ?_, List.perm_insertionSort dateLe _⟩
  intro p hp
  have hp' := (List.mem_insertionSort dateLe).mp hp
  obtain ⟨r, -, hr⟩ := List.mem_filterMap.mp hp'
  unfold coerceRow at hr
  split at hr
  · split at hr
    · exact absurd hr (by simp)
    · obtain ⟨-, h2⟩ := Prod.mk.injEq .. ▸ Option.some_inj.mp hr
      intro hnan
      simp_all
  · exact absurd hr (by simp)

/-- C8 witness: the amended invariants instantiated on a concrete frame with
one droppable row. -/
theorem C8_normalized_series_witness :
    List.Sorted dateLe (normalize_df [⟨some 2, PVal.num 7⟩, ⟨none, PVal.num 1⟩]) ∧
    ((2 : ℤ), PVal.num 7).2 ≠ PVal.nan :=
  ⟨(C8_normalized_series [⟨some 2, PVal.num 7⟩, ⟨none, PVal.num 1⟩]).1,
    (C8_normalized_series [⟨some 2, PVal.num 7⟩, ⟨none, PVal.num 1⟩]).2.1
      ((2 : ℤ), PVal.num 7) (by decide)⟩

/-! ## evolutionary_optimizer.py -/

/-- The epsilon of the normalisation guard, `1e-9`. -/
def epsEO : ℚ := 1 / 1000000000

/-- Embedding of `np.clip(weights, 0, None)`. -/
def clip0 (v : List ℚ) : List ℚ := v.map (fun x => max x 0)

/-- The inner helper `normalize` of `evolutionary_optimize`
(evolutionary_optimizer.py lines 25-27): clip negatives to zero, then divide
elementwise by the clipped sum plus epsilon. -/
def normalize (v : List ℚ) : List ℚ :=
  (clip0 v).map (fun x => x / ((clip0 v).sum + epsEO))

/-- Elementwise dot product, as the `sum(weights[i] * xs[t] ...)`
comprehensions in `fitness`. -/
def dotQ (w v : List ℚ) : ℚ := (w.zipWith (fun a b => a * b) v).sum

/-- The inner helper `fitness` (evolutionary_optimizer.py lines 30-37) with
coefficients 0.5 and 0.3. -/
def fitness (returns risks sents : List ℚ) (w : List ℚ) : ℚ :=
  dotQ w returns - (1 / 2) * dotQ w risks + (3 / 10) * dotQ w sents

/-- Python `int()` truncation toward zero on a float, applied to
`elite_frac * population_size`. -/
def pytrunc (q : ℚ) : ℤ := if q < 0 then -(Int.floor (-q)) else Int.floor q

/-- Embedding of `elite_count = max(1, int(elite_frac * population_size))`
(evolutionary_optimizer.py line 44). -/
def eliteCount (elite_frac : ℚ) (population_size : ℕ) : ℕ :=
  max 1 (pytrunc (elite_frac * population_size)).toNat

/-- Score comparison used to model `np.argsort(scores)` on
(individual, score) pairs. -/
def scoreLe (a b : List ℚ × ℚ) : Prop := a.2 ≤ b.2

instance : DecidableRel scoreLe := fun a b => inferInstanceAs (Decidable (a.2 ≤ b.2))

instance : IsTotal (List ℚ × ℚ) scoreLe := ⟨fun a b => le_total a.2 b.2⟩

instance : IsTrans (List ℚ × ℚ) scoreLe := ⟨fun _ _ _ h1 h2 => le_trans h1 h2⟩

/-- Embedding of `elite_idx = np.argsort(scores)[-elite_count:]` followed by
`elites = [population[i] for i in elite_idx]` (evolutionary_optimizer.py
lines 47-48): sort the (individual, score) pairs by ascending score, keep
the last `k`.  `np.argsort`'s default kind is not stable, so the tie order
is unspecified; no property proved here depends on it. -/
def selectTop (k : ℕ) (pop : List (List ℚ)) (scores : List ℚ) : List (List ℚ) :=
  (((pop.zip scores).insertionSort scoreLe).drop ((pop.zip scores).length - k)).map
    Prod.fst

/-- Embedding of `child[idx] += delta`. -/
def updAt (l : List ℚ) (i : ℕ) (d : ℚ) : List ℚ := l.set i (l.getD i 0 + d)

/-- The random draws of one allocator run, supplied as an oracle.  Each
field models one `random`/`np.random` call, keyed by generation and child
index; values are reduced modulo the call's guaranteed range at use sites
(`random.sample(elites, 2)` returns two distinct positions,
`random.randint(1, n-1)` a cut in `[1, n-1]`, `random.randint(0, n-1)` an
index in `[0, n-1]`; `mutate` is the outcome of
`random.random() < mutation_rate`; the ValueError conditions of `sample` and
`randint` are modelled separately in `evoStep`). -/
structure EvoOracle where
  initVec : ℕ → ℕ → ℚ
  pick : ℕ → ℕ → ℕ × ℕ
  cut : ℕ → ℕ → ℕ
  mutate : ℕ → ℕ → Bool
  mutIdx : ℕ → ℕ → ℕ
  mutDelta : ℕ → ℕ → ℚ

/-- The non-random inputs of `evolutionary_optimize`; `returns`, `risks` and
`sents` are the dict values in ticker order (`n = returns.length`), and
`mutation_rate` enters only through the oracle's `mutate` outcome. -/
structure EvoParams where
  returns : List ℚ
  risks : List ℚ
  sents : List ℚ
  population_size : ℕ
  generations : ℕ
  elite_frac : ℚ

/-- One crossover/mutation child (evolutionary_optimizer.py lines 53-59),
given that the `sample`/`randint` range checks have passed. -/
def mkChild (O : EvoOracle) (n : ℕ) (elites : List (List ℚ)) (g i : ℕ) : List ℚ :=
  let m := elites.length
  let a := (O.pick g i).1 % m
  let b := (a + 1 + (O.pick g i).2 % (m - 1)) % m
  let p1 := elites.getD a []
  let p2 := elites.getD b []
  let cut := 1 + O.cut g i % (n - 1)
  let child := p1.take cut ++ p2.drop cut
  let child2 := if O.mutate g i then updAt child (O.mutIdx g i % n) (O.mutDelta g i)
    else child
  normalize child2

/-- One generation of `evolutionary_optimize` (evolutionary_optimizer.py
lines 42-61).  The `while` loop needs `population_size - elite_count`
children; on its first iteration `random.sample(elites, 2)` raises
ValueError when there are fewer than two elites, and `random.randint(1, n-1)`
raises ValueError when `n < 2`. -/
def evoStep (P : EvoParams) (O : EvoOracle) (g : ℕ) (pop : List (List ℚ)) :
    Except String (List (List ℚ)) :=
  let scores := pop.map (fitness P.returns P.risks P.sents)
  let ec := eliteCount P.elite_frac P.population_size
  let elites := selectTop ec pop scores
  if P.population_size - ec = 0 then Except.ok (elites ++ [])
  else if elites.length < 2 then
    Except.error "ValueError: sample larger than population or is negative"
  else if P.returns.length < 2 then
    Except.error "ValueError: empty range for randrange"
  else
    Except.ok (elites ++ (List.range (P.population_size - ec)).map
      (fun i => mkChild O P.returns.length elites g i))

/-- The initial population (evolutionary_optimizer.py line 40):
`normalize(np.random.rand(n))`, `population_size` times. -/
def initPop (P : EvoParams) (O : EvoOracle) : List (List ℚ) :=
  (List.range P.population_size).map
    (fun i => normalize ((List.range P.returns.length).map (fun j => O.initVec i j)))

/-- The population after `g` generations. -/
def popTrace (P : EvoParams) (O : EvoOracle) : ℕ → Except String (List (List ℚ))
  | 0 => Except.ok (initPop P O)
  | g + 1 => (popTrace P O g).bind (evoStep P O g)

/-- Embedding of `int(np.argmax(scores))`: index of the first maximal score
(Python raises on an empty list; the embedding returns 0 there, a case no
theorem below relies on). -/
def argmaxIdx (scores : List ℚ) : ℕ :=
  ((scores.zip (List.range scores.length)).foldl
    (fun best p => if best.1 < p.1 then p else best)
    (scores.getD 0 0, 0)).2

/-- Embedding of `evolutionary_optimize` (evolutionary_optimizer.py lines
5-68): run the generations, then return the best individual and `max(scores)`.
The Python wrapper additionally rounds each weight to three decimals for
the returned dict (display-level, float round-half-even); the candidate
itself is returned unrounded here. -/
def evolutionary_optimize (P : EvoParams) (O : EvoOracle) :
    Except String (List ℚ × ℚ) :=
  (popTrace P O P.generations).map (fun pop =>
    let scores := pop.map (fitness P.returns P.risks P.sents)
    (pop.getD (argmaxIdx scores) [], scores.foldl max (scores.getD 0 0)))

theorem sum_map_div (l : List ℚ) (c : ℚ) :
    (l.map (fun x => x / c)).sum = l.sum / c := by
  induction l with
  | nil => simp
  | cons a r ih => simp [ih, add_div]

theorem clip0_sum_nonneg (v : List ℚ) : 0 ≤ (clip0 v).sum := by
  apply List.sum_nonneg
  intro x hx
  obtain ⟨y, -, hye⟩ := List.mem_map.mp hx
  subst hye
  exact le_max_right y 0

theorem epsEO_pos : 0 < epsEO := by norm_num [epsEO]

theorem normalize_nonneg (v : List ℚ) : ∀ x ∈ normalize v, 0 ≤ x := by
  intro x hx
  unfold normalize at hx
  obtain ⟨y, hy, hye⟩ := List.mem_map.mp hx
  subst hye
  apply div_nonneg
  · obtain ⟨z, -, hze⟩ := List.mem_map.mp hy
    subst hze
    exact le_max_right z 0
  · have := clip0_sum_nonneg v
    have := epsEO_pos
    linarith

theorem normalize_sum (v : List ℚ) :
    (normalize v).sum = (clip0 v).sum / ((clip0 v).sum + epsEO) := by
  unfold normalize
  exact sum_map_div (clip0 v) ((clip0 v).sum + epsEO)

theorem normalize_sum_zero (v : List ℚ) (h : (clip0 v).sum = 0) :
    (normalize v).sum = 0 := by
  rw [normalize_sum, h, zero_div]

theorem selectTop_length (k : ℕ) (pop : List (List ℚ)) (scores : List ℚ) :
    (selectTop k pop scores).length = min k (pop.zip scores).length := by
  unfold selectTop
  rw [List.length_map, List.length_drop, List.length_insertionSort]
  omega

theorem selectTop_subset (k : ℕ) (pop : List (List ℚ)) (scores : List ℚ) :
    ∀ w ∈ selectTop k pop scores, w ∈ pop := by
  intro w hw
  unfold selectTop at hw
  obtain ⟨p, hp, hpe⟩ := List.mem_map.mp hw
  have hp2 := List.mem_of_mem_drop hp
  have hp3 := (List.mem_insertionSort scoreLe).mp hp2
  subst hpe
  exact (List.of_mem_zip hp3).1

theorem mkChild_eq_normalize (O : EvoOracle) (n : ℕ) (elites : List (List ℚ))
    (g i : ℕ) : ∃ v, mkChild O n elites g i = normalize v :=
  ⟨_, rfl⟩

theorem eliteCount_pos (frac : ℚ) (ps : ℕ) : 1 ≤ eliteCount frac ps :=
  le_max_left 1 _

theorem eliteCount_le (frac : ℚ) (ps : ℕ) (hfrac : frac ≤ 1) (hps : 1 ≤ ps) :
    eliteCount frac ps ≤ ps := by
  unfold eliteCount pytrunc
  rcases lt_or_le (frac * (ps : ℚ)) 0 with h | h
  · rw [if_pos h, Int.toNat_of_nonpos]
    · omega
    · have : (0 : ℤ) ≤ Int.floor (-(frac * (ps : ℚ))) := by
        rw [Int.le_floor]
        push_cast
        linarith
      omega
  · rw [if_neg (not_lt.mpr h)]
    have h1 : frac * (ps : ℚ) ≤ (ps : ℚ) := by
      calc frac * (ps : ℚ) ≤ 1 * (ps : ℚ) := by
            apply mul_le_mul_of_nonneg_right hfrac
            positivity
        _ = (ps : ℚ) := one_mul _
    have h2 : Int.floor (frac * (ps : ℚ)) ≤ (ps : ℤ) := by
      calc Int.floor (frac * (ps : ℚ)) ≤ Int.floor ((ps : ℚ)) := Int.floor_mono h1
        _ = (ps : ℤ) := Int.floor_natCast ps
    have h3 := Int.toNat_le.mpr h2
    omega

theorem popTrace_length (P : EvoParams) (O : EvoOracle)
    (hfrac : P.elite_frac ≤ 1) (hps : 1 ≤ P.population_size) :
    ∀ g pop, popTrace P O g = Except.ok pop → pop.length = P.population_size := by
  intro g
  induction g with
  | zero =>
      intro pop h
      simp only [popTrace] at h
      injection h with h
      subst h
      simp [initPop]
  | succ n ih =>
      intro pop h
      simp only [popTrace] at h
      cases hn : popTrace P O n with
      | error e => rw [hn] at h; exact absurd h (by simp [Except.bind])
      | ok p =>
          rw [hn] at h
          have hp := ih p hn
          simp only [Except.bind] at h
          simp only [evoStep] at h
          have hzip : (p.zip (p.map (fitness P.returns P.risks P.sents))).length
              = p.length := by simp
          have hec : eliteCount P.elite_frac P.population_size
              ≤ P.population_size := eliteCount_le _ _ hfrac hps
          by_cases h1 : P.population_size - eliteCount P.elite_frac P.population_size = 0
          · rw [if_pos h1] at h
            injection h with h
            subst h
            rw [List.length_append, selectTop_length, hzip, hp, List.length_nil,
              Nat.min_eq_left hec]
            omega
          · rw [if_neg h1] at h
            by_cases h2 : (selectTop (eliteCount P.elite_frac P.population_size) p
                (p.map (fitness P.returns P.risks P.sents))).length < 2
            · rw [if_pos h2] at h
              exact absurd h (by simp)
            · rw [if_neg h2] at h
              by_cases h3 : P.returns.length < 2
              · rw [if_pos h3] at h
                exact absurd h (by simp)
              · rw [if_neg h3] at h
                injection h with h
                subst h
                rw [List.length_append, selectTop_length, hzip, hp, List.length_map,
                  List.length_range, Nat.min_eq_left hec]
                omega

theorem popTrace_members (P : EvoParams) (O : EvoOracle) :
    ∀ g pop, popTrace P O g = Except.ok pop → ∀ w ∈ pop, ∃ v, w = normalize v := by
  intro g
  induction g with
  | zero =>
      intro pop h w hw
      simp only [popTrace] at h
      injection h with h
      subst h
      simp only [initPop] at hw
      obtain ⟨i, -, hie⟩ := List.mem_map.mp hw
      exact ⟨_, hie.symm⟩
  | succ n ih =>
      intro pop h w hw
      simp only [popTrace] at h
      cases hn : popTrace P O n with
      | error e => rw [hn] at h; exact absurd h (by simp [Except.bind])
      | ok p =>
          rw [hn] at h
          simp only [Except.bind] at h
          simp only [evoStep] at h
          by_cases h1 : P.population_size - eliteCount P.elite_frac P.population_size = 0
          · rw [if_pos h1] at h
            injection h with h
            subst h
            rcases List.mem_append.mp hw with hw | hw
            · exact ih p hn w (selectTop_subset _ _ _ w hw)
            · simp at hw
          · rw [if_neg h1] at h
            by_cases h2 : (selectTop (eliteCount P.elite_frac P.population_size) p
                (p.map (fitness P.returns P.risks P.sents))).length < 2
            · rw [if_pos h2] at h
              exact absurd h (by simp)
            · rw [if_neg h2] at h
              by_cases h3 : P.returns.length < 2
              · rw [if_pos h3] at h
                exact absurd h (by simp)
              · rw [if_neg h3] at h
                injection h with h
                subst h
                rcases List.mem_append.mp hw with hw | hw
                · exact ih p hn w (selectTop_subset _ _ _ w hw)
                · obtain ⟨i, -, hie⟩ := List.mem_map.mp hw
                  exact hie ▸ mkChild_eq_normalize O P.returns.length _ n i

theorem evolutionary_optimize_ok (P : EvoParams) (O : EvoOracle)
    (best : List ℚ) (s : ℚ)
    (h : evolutionary_optimize P O = Except.ok (best, s)) :
    ∃ v, best = normalize v := by
  unfold evolutionary_optimize at h
  cases hp : popTrace P O P.generations with
  | error e => rw [hp] at h; exact absurd h (by simp [Except.map])
  | ok pop =>
      rw [hp] at h
      simp only [Except.map] at h
      injection h with h
      have hbest : best
          = pop.getD (argmaxIdx (pop.map (fitness P.returns P.risks P.sents))) [] := by
        have := congrArg Prod.fst h
        simpa using this.symm
      by_cases hlen :
          argmaxIdx (pop.map (fitness P.returns P.risks P.sents)) < pop.length
      · have hmem : pop.getD
            (argmaxIdx (pop.map (fitness P.returns P.risks P.sents))) [] ∈ pop := by
          rw [List.getD_eq_getElem?_getD, List.getElem?_eq_getElem hlen]
          simp
        exact popTrace_members P O P.generations pop hp _ (hbest ▸ hmem)
      · have hnil : pop.getD
            (argmaxIdx (pop.map (fitness P.returns P.risks P.sents))) [] = [] := by
          rw [List.getD_eq_getElem?_getD, List.getElem?_eq_none (le_of_not_lt hlen)]
          rfl
        exact ⟨[], by rw [hbest, hnil]; rfl⟩

/-- C2 is refuted by the code: with a single ticker (n = 1) the crossover
loop crashes.  With `population_size = 50` (the default elite fraction 0.2
gives 10 elites, so `random.sample` succeeds) `random.randint(1, n-1)`
is `randint(1, 0)` and raises ValueError; with `population_size = 2`
(one elite) `random.sample(elites, 2)` raises first.  This holds for every
random draw. -/
theorem C2_single_ticker_crash (O : EvoOracle) :
    evolutionary_optimize ⟨[0], [0], [0], 50, 1, 1/5⟩ O
      = Except.error "ValueError: empty range for randrange" ∧
    evolutionary_optimize ⟨[0], [0], [0], 2, 1, 1/5⟩ O
      = Except.error "ValueError: sample larger than population or is negative" := by
  have hec50 : eliteCount (1/5) 50 = 10 := by
    unfold eliteCount pytrunc
    rw [if_neg (by push_cast; norm_num)]
    rw [show ((1:ℚ)/5 * ((50:ℕ) : ℚ)) = ((10:ℤ) : ℚ) by push_cast; norm_num]
    rw [Int.floor_intCast]
    rfl
  have hec2 : eliteCount (1/5) 2 = 1 := by
    unfold eliteCount pytrunc
    rw [if_neg (by push_cast; norm_num)]
    rw [show ((1:ℚ)/5 * ((2:ℕ) : ℚ)) = 2/5 by push_cast; norm_num]
    rw [show Int.floor ((2:ℚ)/5) = 0 by
      rw [Int.floor_eq_iff]
      norm_num]
    rfl
  constructor
  · have h1 : popTrace ⟨[0], [0], [0], 50, 1, 1/5⟩ O 1
        = Except.error "ValueError: empty range for randrange" := by
      simp only [popTrace, Except.bind, evoStep]
      rw [hec50]
      rw [if_neg (by norm_num)]
      rw [if_neg (by
        rw [selectTop_length]
        simp [initPop])]
      rw [if_pos (by simp)]
    unfold evolutionary_optimize
    rw [show (⟨[0], [0], [0], 50, 1, 1/5⟩ : EvoParams).generations = 1 from rfl, h1]
    rfl
  · have h1 : popTrace ⟨[0], [0], [0], 2, 1, 1/5⟩ O 1
        = Except.error "ValueError: sample larger than population or is negative" := by
      simp only [popTrace, Except.bind, evoStep]
      rw [hec2]
      rw [if_neg (by norm_num)]
      rw [if_pos (by
        rw [selectTop_length]
        simp [initPop])]
    unfold evolutionary_optimize
    rw [show (⟨[0], [0], [0], 2, 1, 1/5⟩ : EvoParams).generations = 1 from rfl, h1]
    rfl

/-- C3 counterexample: an allocator run (one individual, zero generations)
whose random vector is all-zero.  The returned candidate is the zero vector:
its entries sum to 0, which is not within any floating tolerance of 1 — the
epsilon guard prevents division by zero but cannot make a collapsed
candidate sum to 1. -/
theorem C3_counterexample :
    evolutionary_optimize ⟨[0, 0], [0, 0], [0, 0], 1, 0, 1/5⟩
        ⟨fun _ _ => 0, fun _ _ => (0, 0), fun _ _ => 0, fun _ _ => false,
          fun _ _ => 0, fun _ _ => 0⟩
      = Except.ok ([0, 0], 0) ∧
    ([(0 : ℚ), 0]).sum = 0 ∧ |([(0 : ℚ), 0]).sum - 1| = 1 := by
  refine ⟨?_, by norm_num, by norm_num⟩
  have hnorm : normalize [0, 0] = [0, 0] := by
    simp [normalize, clip0, epsEO]
  have hfit : fitness [0, 0] [0, 0] [0, 0] [0, 0] = 0 := by
    simp [fitness, dotQ]
  unfold evolutionary_optimize
  simp only [popTrace, initPop]
  norm_num [hnorm, hfit, Except.map, argmaxIdx,
    show (List.replicate 2 (0:ℚ)) = [0, 0] from rfl, List.range_succ]

/-- C3 (amended): the allocator's normalize clips negatives to zero and
divides by the clipped sum plus epsilon, so every entry of `normalize v` is
nonnegative and the entries sum to `s / (s + 1e-9)` where `s` is the clipped
sum — slightly below 1 when `s` is away from zero, but exactly 0 (not 1)
when all components collapse to zero; consequently every candidate of every
population of a run, and the final result, has no negative entries. -/
theorem C3_candidate_invariant (P : EvoParams) (O : EvoOracle) (v : List ℚ) :
    (∀ x ∈ normalize v, 0 ≤ x) ∧
    (normalize v).sum = (clip0 v).sum / ((clip0 v).sum + epsEO) ∧
    ((clip0 v).sum = 0 → (normalize v).sum = 0) ∧
    (∀ g pop, popTrace P O g = Except.ok pop → ∀ w ∈ pop, ∀ x ∈ w, 0 ≤ x) ∧
    (∀ best s, evolutionary_optimize P O = Except.ok (best, s) →
      ∀ x ∈ best, 0 ≤ x) := by
  refine ⟨normalize_nonneg v, normalize_sum v, normalize_sum_zero v, ?_, ?_⟩
  · intro g pop hg w hw x hx
    obtain ⟨u, hu⟩ := popTrace_members P O g pop hg w hw
    exact normalize_nonneg u x (hu ▸ hx)
  · intro best s h x hx
    obtain ⟨u, hu⟩ := evolutionary_optimize_ok P O best s h
    exact normalize_nonneg u x (hu ▸ hx)

/-- C3 witness: the invariants instantiated at the vector `[-5, 3]`, whose
negative entry is clipped to zero. -/
theorem C3_candidate_invariant_witness : (0 : ℚ) ≤ 0 :=
  (C3_candidate_invariant ⟨[], [], [], 0, 0, 0⟩
    ⟨fun _ _ => 0, fun _ _ => (0, 0), fun _ _ => 0, fun _ _ => false,
      fun _ _ => 0, fun _ _ => 0⟩ [-5, 3]).1 0
    (by norm_num [normalize, clip0, epsEO])

/-- C9 counterexample: with `eliteFraction = 1/2` and `populationSize = 5`
the code selects `max(1, int(0.5 * 5)) = 2` elites, whereas
`ceil(0.5 * 5) = 3`: `int()` truncates, it does not take the ceiling. -/
theorem C9_counterexample :
    eliteCount (1/2) 5 = 2 ∧ Int.ceil ((1 : ℚ)/2 * ((5 : ℕ) : ℚ)) = 3 ∧
      (2 : ℕ) ≠ 3 := by
  refine ⟨?_, ?_, by norm_num⟩
  · unfold eliteCount pytrunc
    rw [if_neg (by push_cast; norm_num)]
    rw [show ((1:ℚ)/2 * ((5:ℕ) : ℚ)) = 5/2 by push_cast; norm_num]
    rw [show Int.floor ((5:ℚ)/2) = 2 by
      rw [Int.floor_eq_iff]
      norm_num]
    rfl
  · rw [show ((1:ℚ)/2 * ((5:ℕ) : ℚ)) = 5/2 by push_cast; norm_num]
    rw [Int.ceil_eq_iff]
    norm_num

/-- C9 (amended): in each generation of a run the number of elites selected
equals `max(1, trunc(eliteFraction × populationSize))` — truncation, not
ceiling — which is at least 1; the elites are carried unchanged as the head
of the next population, and each elite is a member of the current
population. -/
theorem C9_elites (P : EvoParams) (O : EvoOracle) (g : ℕ)
    (pop pop' : List (List ℚ))
    (hfrac : P.elite_frac ≤ 1) (hps : 1 ≤ P.population_size)
    (hg : popTrace P O g = Except.ok pop)
    (hg' : popTrace P O (g + 1) = Except.ok pop') :
    (selectTop (eliteCount P.elite_frac P.population_size) pop
        (pop.map (fitness P.returns P.risks P.sents))).length
      = eliteCount P.elite_frac P.population_size ∧
    1 ≤ eliteCount P.elite_frac P.population_size ∧
    eliteCount P.elite_frac P.population_size
      = max 1 (pytrunc (P.elite_frac * P.population_size)).toNat ∧
    pop'.take (eliteCount P.elite_frac P.population_size)
      = selectTop (eliteCount P.elite_frac P.population_size) pop
        (pop.map (fitness P.returns P.risks P.sents)) ∧
    (∀ w ∈ selectTop (eliteCount P.elite_frac P.population_size) pop
        (pop.map (fitness P.returns P.risks P.sents)), w ∈ pop) := by
  have hp := popTrace_length P O hfrac hps g pop hg
  have hec : eliteCount P.elite_frac P.population_size ≤ P.population_size :=
    eliteCount_le _ _ hfrac hps
  have hlen : (selectTop (eliteCount P.elite_frac P.population_size) pop
      (pop.map (fitness P.returns P.risks P.sents))).length
      = eliteCount P.elite_frac P.population_size := by
    rw [selectTop_length]
    simp only [List.length_zip, List.length_map, hp]
    omega
  refine ⟨hlen, eliteCount_pos _ _, rfl, ?_, selectTop_subset _ _ _⟩
  simp only [popTrace] at hg'
  rw [hg] at hg'
  simp only [Except.bind] at hg'
  simp only [evoStep] at hg'
  by_cases h1 : P.population_size - eliteCount P.elite_frac P.population_size = 0
  · rw [if_pos h1] at hg'
    injection hg' with hg'
    subst hg'
    rw [List.take_left' hlen]
  · rw [if_neg h1] at hg'
    by_cases h2 : (selectTop (eliteCount P.elite_frac P.population_size) pop
        (pop.map (fitness P.returns P.risks P.sents))).length < 2
    · rw [if_pos h2] at hg'
      exact absurd hg' (by simp)
    · rw [if_neg h2] at hg'
      by_cases h3 : P.returns.length < 2
      · rw [if_pos h3] at hg'
        exact absurd hg' (by simp)
      · rw [if_neg h3] at hg'
        injection hg' with hg'
        subst hg'
        rw [List.take_left' hlen]

/-- C9 witness: a one-individual, full-elite run in which the single elite
is selected and carried unchanged. -/
theorem C9_elites_witness :
    1 ≤ eliteCount 1 1 :=
  (C9_elites ⟨[0], [0], [0], 1, 1, 1⟩
    ⟨fun _ _ => 0, fun _ _ => (0, 0), fun _ _ => 0, fun _ _ => false,
      fun _ _ => 0, fun _ _ => 0⟩ 0 [[0]] [[0]]
    (by norm_num) (by norm_num)
    (by
      simp only [popTrace, initPop]
      norm_num [normalize, clip0, epsEO])
    (by
      have hnorm : normalize [0] = [0] := by simp [normalize, clip0, epsEO]
      have hone : eliteCount 1 1 = 1 := by
        unfold eliteCount pytrunc
        rw [if_neg (by push_cast; norm_num)]
        rw [show ((1:ℚ) * ((1:ℕ) : ℚ)) = ((1:ℤ) : ℚ) by push_cast; norm_num]
        rw [Int.floor_intCast]
        rfl
      simp only [popTrace, initPop, Except.bind, evoStep]
      norm_num [hnorm, hone, selectTop, List.insertionSort])).2.1

end ESGAI
